import Mathlib

/-!
A shallow embedding of `rename-from-QR.py`, a script that renames image
files after the QR codes found inside them.  Pure string manipulation
(`os.path` helpers, the duplicate grouping and the rename mapping) is
translated directly; the external image and decoding primitives (PIL and
pyzbar) are abstracted as an environment record, and the control flow of
`qr_code`, `find_images`, `get_qr_codes` and `main` is translated
statement by statement on top of it.  Python exceptions that escape a
function are modelled with `Except`; an exception swallowed by a
`try/except` block is modelled by the branch the handler takes.
-/

/-! ### `os.path` helpers (posixpath semantics) -/

/-- Drop trailing slash characters, as `str.rstrip("/")` does. -/
def rstripSlash (cs : List Char) : List Char :=
  (cs.reverse.dropWhile (fun c => c == '/')).reverse

/-- `os.path.dirname`: everything up to the last slash, with trailing
slashes stripped unless the result consists only of slashes. -/
def dirname (p : String) : String :=
  let head := (p.data.reverse.dropWhile (fun c => c ≠ '/')).reverse
  if head ≠ [] ∧ head.any (fun c => c ≠ '/') then ⟨rstripSlash head⟩ else ⟨head⟩

/-- `os.path.basename`: everything after the last slash. -/
def basename (p : String) : String :=
  ⟨(p.data.reverse.takeWhile (fun c => c ≠ '/')).reverse⟩

/-- The first component of `os.path.splitext`: the path without its
extension.  The extension starts at the last dot of the base name,
provided some earlier character of the base name is not a dot. -/
def splitextFst (p : String) : String :=
  let name := (basename p).data
  let revName := name.reverse
  let extLen := (revName.takeWhile (fun c => c ≠ '.')).length
  if extLen = revName.length then p
  else
    let stem := (revName.drop (extLen + 1)).reverse
    if stem.any (fun c => c ≠ '.') then ⟨p.data.take (p.data.length - extLen - 1)⟩
    else p

/-- `os.path.splitext(os.path.basename(filename))[0]`, the fallback
pseudo-payload used by `qr_code` when no valid code is recoverable. -/
def fallbackName (filename : String) : String :=
  splitextFst (basename filename)

/-- `os.path.join(a, b)` for POSIX paths.  The conditions
`b.startswith("/")` and `a.endswith("/")` are expressed on the
character list of the string. -/
def joinPath (a b : String) : String :=
  if b.data.head? = some '/' then b
  else if a = "" ∨ a.data.getLast? = some '/' then a ++ b
  else a ++ "/" ++ b

/-- Python `s.startswith(pre)`, computed on the character lists. -/
def pyStartsWith (s pre : String) : Bool := pre.data.isPrefixOf s.data

/-- Python `s.endswith(suf)`, computed on the character lists. -/
def pyEndsWith (s suf : String) : Bool := suf.data.isSuffixOf s.data

/-! ### Decimal rendering of a natural number, modelling Python `str(i)` -/

/-- One decimal digit character. -/
def digitCh (n : Nat) : Char :=
  if n = 0 then '0' else if n = 1 then '1' else if n = 2 then '2'
  else if n = 3 then '3' else if n = 4 then '4' else if n = 5 then '5'
  else if n = 6 then '6' else if n = 7 then '7' else if n = 8 then '8' else '9'

/-- Decimal digits of `n`, most significant first; the first argument
is fuel, sufficient whenever it is at least `n`. -/
def natDigitsAux : Nat → Nat → List Char
  | 0, n => [digitCh n]
  | fuel + 1, n =>
    if n < 10 then [digitCh n]
    else natDigitsAux fuel (n / 10) ++ [digitCh (n % 10)]

/-- Python `str(i)` for a natural number. -/
def natStr (n : Nat) : String := ⟨natDigitsAux n n⟩

/-- Numeric value of a digit character. -/
def charVal (c : Char) : Nat := c.toNat - 48

/-- Numeric value of a digit string, used to invert `natDigits`. -/
def natVal (ds : List Char) : Nat := ds.foldl (fun a c => a * 10 + charVal c) 0

/-! ### UTF-8 decoding, modelling `bytes.decode("utf-8")` -/

/-- Is `b` a UTF-8 continuation byte? -/
def utf8Cont (b : Nat) : Bool := 0x80 ≤ b && b ≤ 0xBF

/-- Strict UTF-8 decoding of a byte list into code points, rejecting
overlong forms, surrogates and out-of-range values as CPython does. -/
def utf8Points : List Nat → Option (List Nat)
  | [] => some []
  | b :: rest =>
    if b < 0x80 then (utf8Points rest).map (fun ps => b :: ps)
    else if 0xC2 ≤ b ∧ b ≤ 0xDF then
      match rest with
      | b2 :: rest2 =>
        if utf8Cont b2 then
          (utf8Points rest2).map (fun ps => ((b - 0xC0) * 64 + (b2 - 0x80)) :: ps)
        else none
      | _ => none
    else if 0xE0 ≤ b ∧ b ≤ 0xEF then
      match rest with
      | b2 :: b3 :: rest3 =>
        let lo2 := if b = 0xE0 then 0xA0 else 0x80
        let hi2 := if b = 0xED then 0x9F else 0xBF
        if (lo2 ≤ b2 ∧ b2 ≤ hi2) ∧ utf8Cont b3 then
          (utf8Points rest3).map
            (fun ps => ((b - 0xE0) * 4096 + (b2 - 0x80) * 64 + (b3 - 0x80)) :: ps)
        else none
      | _ => none
    else if 0xF0 ≤ b ∧ b ≤ 0xF4 then
      match rest with
      | b2 :: b3 :: b4 :: rest4 =>
        let lo2 := if b = 0xF0 then 0x90 else 0x80
        let hi2 := if b = 0xF4 then 0x8F else 0xBF
        if (lo2 ≤ b2 ∧ b2 ≤ hi2) ∧ (utf8Cont b3 ∧ utf8Cont b4) then
          (utf8Points rest4).map
            (fun ps =>
              ((b - 0xF0) * 262144 + (b2 - 0x80) * 4096 + (b3 - 0x80) * 64 + (b4 - 0x80)) :: ps)
        else none
      | _ => none
    else none

/-- `bytes.decode("utf-8")`: `some` on success, `none` when CPython
would raise `UnicodeDecodeError`. -/
def utf8Decode (bs : List Nat) : Option String :=
  (utf8Points bs).map (fun ps => ⟨ps.map Char.ofNat⟩)

/-! ### The pyzbar / PIL environment -/

/-- One result of `pyzbar.decode`: a byte payload and a symbology name
(pyzbar's `Decoded.data` and `Decoded.type`). -/
structure RawCode where
  data : List Nat
  symb : String
  deriving DecidableEq, Repr

/-- The external image primitives used by the script: `PIL.Image.open`
(`none` models an exception, which `open_image` swallows),
`Image.rotate`, `Image.filter` keyed by the `MAP_FILTERS` name,
the monochrome conversion, and `pyzbar.decode`. -/
structure PILEnv (Img : Type) where
  imageOpen : String → Option Img
  rotateImg : Img → Int → Img
  filterImg : Img → String → Img
  monoImg : Img → Img
  decodeRaw : Img → List RawCode

/-- The global configuration the script reads: `ANGLES`, `FILTERS` and
`MONOCHROME`. -/
structure ScanConfig where
  angles : List Int
  filters : List String
  monochrome : Bool

/-- The configuration as initialised at module level in the source:
`ANGLES = [180, 90, 270, 10, 170, 75, 340]`, `FILTERS = ["blur",
"smooth"]`, `MONOCHROME = False`. -/
def cfgDefault : ScanConfig :=
  { angles := [180, 90, 270, 10, 170, 75, 340]
    filters := ["blur", "smooth"]
    monochrome := false }

/-- Truthiness of `MAP_FILTERS.get(f)`: `None` for the key `"none"` and
for unknown keys, a truthy value for every other key of `MAP_FILTERS`. -/
def mapFiltersTruthy (f : String) : Bool :=
  f == "all" || f == "blur" || f == "smooth" || f == "detail" ||
    f == "edges" || f == "sharpen"

/-- `open_image(image_file, rotate, filter)`.  The source's default
arguments are `rotate=1, filter="blur"`; call sites of the embedding
pass them explicitly.  The body rotates when `rotate` is truthy
(non-zero), filters when `filter and MAP_FILTERS.get(filter)` is truthy,
applies the monochrome conversion when the `MONOCHROME` global is set,
and returns `None` when loading raised. -/
def open_image {Img : Type} (env : PILEnv Img) (monochrome : Bool)
    (image_file : String) (rotate : Int) (filter : String) : Option Img :=
  match env.imageOpen image_file with
  | none => none
  | some img0 =>
    let img1 := if rotate ≠ 0 then env.rotateImg img0 rotate else img0
    let img2 :=
      if filter ≠ "" ∧ mapFiltersTruthy filter then env.filterImg img1 filter else img1
    let img3 := if monochrome then env.monoImg img2 else img2
    some img3

/-! ### `qr_code`: the per-file scan -/

/-- A Python exception escaping `qr_code`: `bytes.decode` raising
`UnicodeDecodeError`, or `pyzbar.decode(None)` raising a `TypeError`
after `open_image` failed inside the transform loop. -/
inductive PyErr where
  | unicodeDecodeError : PyErr
  | typeError : PyErr
  deriving DecidableEq, Repr

deriving instance DecidableEq for Except

/-- `qr[0].data.decode("utf-8")` on the first decoded code. -/
def decodeBytes (bs : List Nat) : Except PyErr String :=
  match utf8Decode bs with
  | some s => Except.ok s
  | none => Except.error PyErr.unicodeDecodeError

/-- The ordered `(rotation, filter)` attempt list
`itertools.product(ANGLES, FILTERS)`. -/
def attemptPairs (cfg : ScanConfig) : List (Int × String) :=
  cfg.angles.flatMap (fun d => cfg.filters.map (fun f => (d, f)))

/-- One iteration of the transform loop of `qr_code`: `none` when the
iteration falls through to the next attempt (an `IndexError` was
raised and caught), `some r` when it returns or raises `r`. -/
def loopStep {Img : Type} (env : PILEnv Img) (cfg : ScanConfig)
    (filename : String) (degrees : Int) (filter : String) :
    Option (Except PyErr (String × String)) :=
  match open_image env cfg.monochrome filename degrees filter with
  | none => some (Except.error PyErr.typeError)
  | some img =>
    match env.decodeRaw img with
    | [] => none
    | c :: _ =>
      match decodeBytes c.data with
      | Except.error e => some (Except.error e)
      | Except.ok code =>
        if pyStartsWith code "UMMZI" then some (Except.ok (filename, code))
        else none

/-- The transform loop of `qr_code`: run the attempts in order, falling
back to the file's base name when all of them are exhausted. -/
def scanTransforms {Img : Type} (env : PILEnv Img) (cfg : ScanConfig)
    (filename : String) : List (Int × String) → Except PyErr (String × String)
  | [] => Except.ok (filename, fallbackName filename)
  | (d, f) :: rest =>
    match loopStep env cfg filename d f with
    | some r => r
    | none => scanTransforms env cfg filename rest

/-- `qr_code(filename)`: load the image with the default arguments of
`open_image` (`rotate=1, filter="blur"`); on load failure return the
fallback pair at once.  Otherwise decode, take the first code, and
accept it if its payload starts with `"UMMZI"`; an empty decode or an
invalid payload raises `IndexError`, caught by the handler that runs
the transform loop. -/
def qr_code {Img : Type} (env : PILEnv Img) (cfg : ScanConfig)
    (filename : String) : Except PyErr (String × String) :=
  match open_image env cfg.monochrome filename 1 "blur" with
  | none => Except.ok (filename, fallbackName filename)
  | some img =>
    match env.decodeRaw img with
    | [] => scanTransforms env cfg filename (attemptPairs cfg)
    | c :: _ =>
      match decodeBytes c.data with
      | Except.error e => Except.error e
      | Except.ok code =>
        if pyStartsWith code "UMMZI" then Except.ok (filename, code)
        else scanTransforms env cfg filename (attemptPairs cfg)

/-! ### `find_images`: candidate discovery -/

/-- Matching of a glob component of shape `*<suffix>` against a base
name.  A leading `*` does not match a name beginning with a dot. -/
def globStarExt (suffix base : String) : Bool :=
  !pyStartsWith base "." && pyEndsWith base suffix

/-- Matching of a glob component of shape `<pre>*<suffix>` against a
base name. -/
def globPreExt (pre suffix base : String) : Bool :=
  pyStartsWith base pre && pyEndsWith base suffix &&
    pre.length + suffix.length ≤ base.length

/-- Set union on the list model of a Python set. -/
def lunion (a b : List String) : List String :=
  a ++ b.filter (fun x => !a.contains x)

/-- Set difference on the list model of a Python set. -/
def ldiff (a b : List String) : List String :=
  a.filter (fun x => !b.contains x)

/-- `find_images(directory)`.  The filesystem tree below the directory
is modelled by the list `fs` of the file paths the recursive globs can
see; `directory + "/**/<pattern>"` with `recursive=True` selects the
files whose base name matches `<pattern>`.  The source takes the union
of the `*.jpg`, `*.jpeg`, `image*.jpg`, `*.JPG` and `*.JEPG` globs and
subtracts the `UMMZI*.jpg` and `UMMZI*.JPG` globs. -/
def find_images (fs : List String) : List String :=
  let m1 := fs.filter (fun p => globStarExt ".jpg" (basename p))
  let m2 := lunion m1 (fs.filter (fun p => globStarExt ".jpeg" (basename p)))
  let m3 := lunion m2 (fs.filter (fun p => globPreExt "image" ".jpg" (basename p)))
  let m4 := lunion m3 (fs.filter (fun p => globStarExt ".JPG" (basename p)))
  let m5 := lunion m4 (fs.filter (fun p => globStarExt ".JEPG" (basename p)))
  let m6 := ldiff m5 (fs.filter (fun p => globPreExt "UMMZI" ".jpg" (basename p)))
  ldiff m6 (fs.filter (fun p => globPreExt "UMMZI" ".JPG" (basename p)))

/-! ### `_find_duplicates` and `_file_mapping` -/

/-- `set.add`: Python sets are modelled as insertion-ordered duplicate
free lists. -/
def setAdd (s : List String) (x : String) : List String :=
  if s.contains x then s else s ++ [x]

/-- One step of `_find_duplicates`: `rev[qr].add(orig)` on a
`defaultdict(set)`, modelled as an insertion-ordered association
list. -/
def addResult (rev : List (String × List String)) (qr orig : String) :
    List (String × List String) :=
  if rev.any (fun g => g.1 == qr) then
    rev.map (fun g => if g.1 == qr then (g.1, setAdd g.2 orig) else g)
  else rev ++ [(qr, [orig])]

/-- `_find_duplicates(results)`: group the scanned files by payload,
returning `{QR: set(filenames containing QR)}`. -/
def _find_duplicates (results : List (String × String)) :
    List (String × List String) :=
  results.foldl (fun rev p => addResult rev p.2 p.1) []

/-- Python dict assignment `m[k] = v`: an existing key keeps its
position and gets the new value, a new key is appended. -/
def dictInsert (m : List (String × String)) (k v : String) :
    List (String × String) :=
  if m.any (fun p => p.1 == k) then
    m.map (fun p => if p.1 == k then (k, v) else p)
  else m ++ [(k, v)]

/-- The name suffix chosen inside `_file_mapping`:
`".jpg" if i == 0 else f"_copy{i}.jpg"`. -/
def copyStr (i : Nat) : String :=
  if i = 0 then ".jpg" else "_copy" ++ natStr i ++ ".jpg"

/-- The inner loop of `_file_mapping`: `for i, f in enumerate(files)`,
assigning `os.path.join(os.path.dirname(f), f"{qr}{copy}")` to `f`,
with `i` starting at the given index. -/
def groupInsertAux (qr : String) (i : Nat) (m : List (String × String)) :
    List String → List (String × String)
  | [] => m
  | f :: rest =>
    groupInsertAux qr (i + 1)
      (dictInsert m f (joinPath (dirname f) (qr ++ copyStr i))) rest

/-- `_file_mapping(images)`: group by payload, then give the first file
of each group the bare `{qr}.jpg` name and the following ones
`{qr}_copy{i}.jpg`. -/
def _file_mapping (images : List (String × String)) : List (String × String) :=
  (_find_duplicates images).foldl (fun m g => groupInsertAux g.1 0 m g.2) []

/-! ### `get_qr_codes` and `main` -/

/-- The gathering of the per-file scan tasks: `asyncio.wait` followed by
`[qr.result() for qr in completed]`, which re-raises the first stored
exception it meets. -/
def batchScan {Img : Type} (env : PILEnv Img) (cfg : ScanConfig) :
    List String → Except PyErr (List (String × String))
  | [] => Except.ok []
  | f :: rest =>
    match qr_code env cfg f with
    | Except.error e => Except.error e
    | Except.ok r =>
      match batchScan env cfg rest with
      | Except.error e => Except.error e
      | Except.ok rs => Except.ok (r :: rs)

/-- How a run of `main` over its directory list ends: normally, by
`exit(...)` with an abort message, or by an uncaught scan exception. -/
inductive RunOutcome where
  | finished : RunOutcome
  | aborted (msg : String) : RunOutcome
  | crashed (e : PyErr) : RunOutcome
  deriving DecidableEq, Repr

/-- The per-directory environment of `main`: the filesystem tree seen
under each directory, plus the image primitives shared by all scans. -/
structure DirEnv (Img : Type) where
  fsOf : String → List String
  pil : PILEnv Img

/-- The loop of `main`: for each directory in order, `get_qr_codes`
(which calls `exit` when `find_images` comes back empty, ending the
whole process), then `_file_mapping` over the results.  Returns the
mappings of the directories that were fully processed and how the run
ended. -/
def mainLoop {Img : Type} (env : DirEnv Img) (cfg : ScanConfig) :
    List String → List (String × List (String × String)) × RunOutcome
  | [] => ([], RunOutcome.finished)
  | d :: rest =>
    let unscanned := find_images (env.fsOf d)
    if unscanned.length = 0 then
      ([], RunOutcome.aborted ("No unscanned images detected in " ++ d ++ " - Aborting"))
    else
      match batchScan env.pil cfg unscanned with
      | Except.error e => ([], RunOutcome.crashed e)
      | Except.ok results =>
        let mapping := _file_mapping results
        let next := mainLoop env cfg rest
        ((d, mapping) :: next.1, next.2)

/-! ### Basic lemmas about the string helpers -/

theorem charVal_digitCh (k : Nat) (h : k < 10) : charVal (digitCh k) = k := by
  interval_cases k <;> rfl

theorem natVal_append_digit (ds : List Char) (c : Char) :
    natVal (ds ++ [c]) = natVal ds * 10 + charVal c := by
  simp [natVal, List.foldl_append]

theorem natVal_natDigitsAux (fuel : Nat) :
    ∀ n ≤ fuel, natVal (natDigitsAux fuel n) = n := by
  induction fuel with
  | zero =>
    intro n hn
    have : n = 0 := by omega
    subst this
    simp [natDigitsAux, natVal, charVal_digitCh 0 (by omega)]
  | succ fuel ih =>
    intro n hn
    rw [natDigitsAux]
    split
    · next h =>
      show natVal [digitCh n] = n
      simp [natVal, charVal_digitCh n h]
    · next h =>
      rw [natVal_append_digit,
        ih (n / 10) (by omega),
        charVal_digitCh (n % 10) (Nat.mod_lt _ (by omega))]
      omega

theorem natStr_inj {m n : Nat} (h : natStr m = natStr n) : m = n := by
  have hd : natDigitsAux m m = natDigitsAux n n := congrArg String.data h
  calc m = natVal (natDigitsAux m m) := (natVal_natDigitsAux m m le_rfl).symm
    _ = natVal (natDigitsAux n n) := by rw [hd]
    _ = n := natVal_natDigitsAux n n le_rfl

theorem string_append_cancel_left {a b c : String} (h : a ++ b = a ++ c) : b = c := by
  apply String.ext
  have hd := congrArg String.data h
  rw [String.data_append, String.data_append] at hd
  exact List.append_cancel_left hd

theorem string_append_cancel_right {a b c : String} (h : a ++ c = b ++ c) : a = b := by
  apply String.ext
  have hd := congrArg String.data h
  rw [String.data_append, String.data_append] at hd
  exact List.append_cancel_right hd

theorem copyStr_inj {i j : Nat} (h : copyStr i = copyStr j) : i = j := by
  have hd : (copyStr i).data = (copyStr j).data := congrArg String.data h
  by_cases hi : i = 0 <;> by_cases hj : j = 0
  · omega
  · exfalso
    have hlen := congrArg List.length hd
    simp [copyStr, hi, hj, String.data_append] at hlen
  · exfalso
    have hlen := congrArg List.length hd
    simp [copyStr, hi, hj, String.data_append] at hlen
  · simp only [copyStr, if_neg hi, if_neg hj, String.data_append] at hd
    have h2 := List.append_cancel_right hd
    have h3 : (natStr i).data = (natStr j).data := List.append_cancel_left h2
    exact natStr_inj (String.ext h3)

theorem joinPath_inj {d s1 s2 : String}
    (hh : s1.data.head? = some '/' ↔ s2.data.head? = some '/')
    (h : joinPath d s1 = joinPath d s2) : s1 = s2 := by
  unfold joinPath at h
  by_cases h1 : s1.data.head? = some '/'
  · rw [if_pos h1, if_pos (hh.mp h1)] at h
    exact h
  · rw [if_neg h1, if_neg (fun h2 => h1 (hh.mpr h2))] at h
    by_cases ha : d = "" ∨ d.data.getLast? = some '/'
    · rw [if_pos ha, if_pos ha] at h
      exact string_append_cancel_left h
    · rw [if_neg ha, if_neg ha] at h
      exact string_append_cancel_left (a := d ++ "/") h

theorem head_data_append (qr x : String) (hq : qr ≠ "") :
    (qr ++ x).data.head? = qr.data.head? := by
  rw [String.data_append]
  have : qr.data ≠ [] := by
    intro hnil
    exact hq (String.ext (by simp [hnil]))
  cases hd : qr.data with
  | nil => exact absurd hd this
  | cons c rest => simp

/-! ### Invariants of `_find_duplicates` -/

theorem setAdd_mem (s : List String) (y x : String) :
    x ∈ setAdd s y ↔ x ∈ s ∨ x = y := by
  unfold setAdd
  split
  · next h =>
    have hy : y ∈ s := by simpa using h
    constructor
    · exact Or.inl
    · rintro (hx | rfl)
      · exact hx
      · exact hy
  · simp

theorem setAdd_nodup (s : List String) (y : String) (h : s.Nodup) :
    (setAdd s y).Nodup := by
  unfold setAdd
  split
  · exact h
  · next hc =>
    have hy : y ∉ s := by simpa using hc
    simp [List.nodup_append, h, hy]


/-- The invariant carried through the fold of `_find_duplicates`: the
payload keys are duplicate free, every group is a duplicate free set,
and a file sits in the group of a payload exactly when the processed
prefix of the results contains that (file, payload) pair. -/
def FDInv (processed : List (String × String))
    (rev : List (String × List String)) : Prop :=
  (rev.map Prod.fst).Nodup ∧
  (∀ g ∈ rev, g.2.Nodup) ∧
  (∀ g ∈ rev, g.2 ≠ []) ∧
  (∀ f q, (∃ fs, (q, fs) ∈ rev ∧ f ∈ fs) ↔ (f, q) ∈ processed)

theorem setAdd_ne_nil (s : List String) (y : String) : setAdd s y ≠ [] := by
  unfold setAdd
  split
  · next h =>
    have hy : y ∈ s := by simpa using h
    exact List.ne_nil_of_mem hy
  · simp

theorem FDInv_nil : FDInv [] [] :=
  ⟨List.nodup_nil, fun g hg => absurd hg (List.not_mem_nil g),
    fun g hg => absurd hg (List.not_mem_nil g), fun f q => by simp⟩

theorem FDInv_step (processed : List (String × String))
    (rev : List (String × List String)) (q f : String)
    (h : FDInv processed rev) :
    FDInv (processed ++ [(f, q)]) (addResult rev q f) := by
  obtain ⟨hkeys, hgrp, hne, hmem⟩ := h
  unfold addResult
  split
  · next hany =>
    have hex : ∃ g ∈ rev, g.1 = q := by simpa [List.any_eq_true] using hany
    refine ⟨?_, ?_, ?_, ?_⟩
    · have hk : (rev.map (fun g => if g.1 == q then (g.1, setAdd g.2 f) else g)).map Prod.fst
          = rev.map Prod.fst := by
        rw [List.map_map]
        refine List.map_congr_left ?_
        intro g _
        by_cases hgq : g.1 = q <;> simp [hgq]
      rw [hk]
      exact hkeys
    · intro g' hg'
      obtain ⟨g, hg, hug⟩ := List.mem_map.mp hg'
      by_cases hgq : g.1 = q
      · have : g' = (g.1, setAdd g.2 f) := by simp [← hug, hgq]
        rw [this]
        exact setAdd_nodup _ _ (hgrp g hg)
      · have : g' = g := by simp [← hug, hgq]
        rw [this]
        exact hgrp g hg
    · intro g' hg'
      obtain ⟨g, hg, hug⟩ := List.mem_map.mp hg'
      by_cases hgq : g.1 = q
      · have : g' = (g.1, setAdd g.2 f) := by simp [← hug, hgq]
        rw [this]
        exact setAdd_ne_nil _ _
      · have : g' = g := by simp [← hug, hgq]
        rw [this]
        exact hne g hg
    · intro f' q'
      constructor
      · rintro ⟨fs, hfs, hfmem⟩
        obtain ⟨g, hg, hug⟩ := List.mem_map.mp hfs
        by_cases hgq : g.1 = q
        · have hug' : (g.1, setAdd g.2 f) = (q', fs) := by simpa [hgq] using hug
          have hq1 : q' = g.1 := (congrArg Prod.fst hug').symm
          have hfs1 : fs = setAdd g.2 f := (congrArg Prod.snd hug').symm
          rcases (setAdd_mem _ _ _).mp (hfs1 ▸ hfmem) with hin | hfe
          · refine List.mem_append_left _ ((hmem f' q').mp ?_)
            exact ⟨g.2, by rw [hq1]; exact ⟨by simpa using hg, hin⟩⟩
          · refine List.mem_append_right _ ?_
            simp [hfe, hq1, hgq]
        · have hug' : g = (q', fs) := by simpa [hgq] using hug
          refine List.mem_append_left _ ((hmem f' q').mp ?_)
          exact ⟨fs, hug' ▸ hg, hfmem⟩
      · intro hmem'
        rcases List.mem_append.mp hmem' with hp | hnew
        · obtain ⟨fs, hfs, hf2⟩ := (hmem f' q').mpr hp
          by_cases hq' : q' = q
          · refine ⟨setAdd fs f, ?_, (setAdd_mem _ _ _).mpr (Or.inl hf2)⟩
            have hu : (fun g => if g.1 == q then (g.1, setAdd g.2 f) else g) (q', fs)
                = (q', setAdd fs f) := by simp [hq']
            exact hu ▸ List.mem_map_of_mem _ hfs
          · refine ⟨fs, ?_, hf2⟩
            have hu : (fun g => if g.1 == q then (g.1, setAdd g.2 f) else g) (q', fs)
                = (q', fs) := by simp [hq']
            exact hu ▸ List.mem_map_of_mem _ hfs
        · have hpair : f' = f ∧ q' = q := by simpa using hnew
          obtain ⟨g0, hg0, hg0q⟩ := hex
          refine ⟨setAdd g0.2 f, ?_, (setAdd_mem _ _ _).mpr (Or.inr hpair.1)⟩
          have hu : (fun g => if g.1 == q then (g.1, setAdd g.2 f) else g) g0
              = (q', setAdd g0.2 f) := by simp [hg0q, hpair.2]
          exact hu ▸ List.mem_map_of_mem _ hg0
  · next hany =>
    have hq : q ∉ rev.map Prod.fst := by
      intro hmemq
      obtain ⟨g, hg, hgq⟩ := List.mem_map.mp hmemq
      refine hany ?_
      simp only [List.any_eq_true]
      exact ⟨g, hg, by simpa using hgq⟩
    refine ⟨?_, ?_, ?_, ?_⟩
    · rw [List.map_append]
      refine List.Nodup.append hkeys (by simp) ?_
      intro a ha hb
      have : a = q := by simpa using hb
      exact hq (this ▸ ha)
    · intro g' hg'
      rcases List.mem_append.mp hg' with hg | hg
      · exact hgrp g' hg
      · have : g' = (q, [f]) := by simpa using hg
        rw [this]
        simp
    · intro g' hg'
      rcases List.mem_append.mp hg' with hg | hg
      · exact hne g' hg
      · have : g' = (q, [f]) := by simpa using hg
        rw [this]
        simp
    · intro f' q'
      constructor
      · rintro ⟨fs, hfs, hfmem⟩
        rcases List.mem_append.mp hfs with hg | hg
        · exact List.mem_append_left _ ((hmem f' q').mp ⟨fs, hg, hfmem⟩)
        · have hpair : (q', fs) = (q, [f]) := by simpa using hg
          have hq1 : q' = q := congrArg Prod.fst hpair
          have hfs1 : fs = [f] := congrArg Prod.snd hpair
          have hf3 : f' ∈ [f] := hfs1 ▸ hfmem
          have hfe : f' = f := by simpa using hf3
          exact List.mem_append_right _ (by simp [hq1, hfe])
      · intro hmem'
        rcases List.mem_append.mp hmem' with hp | hnew
        · obtain ⟨fs, hfs, hf2⟩ := (hmem f' q').mpr hp
          exact ⟨fs, List.mem_append_left _ hfs, hf2⟩
        · have hpair : f' = f ∧ q' = q := by simpa using hnew
          exact ⟨[f], List.mem_append_right _ (by simp [hpair.2]), by simp [hpair.1]⟩

theorem FDInv_fold (l : List (String × String)) :
    ∀ (processed : List (String × String)) (rev : List (String × List String)),
      FDInv processed rev →
      FDInv (processed ++ l) (l.foldl (fun rev p => addResult rev p.2 p.1) rev) := by
  induction l with
  | nil => intro processed rev h; simpa using h
  | cons p rest ih =>
    intro processed rev h
    have h1 := FDInv_step processed rev p.2 p.1 h
    have h2 := ih (processed ++ [(p.1, p.2)]) _ h1
    simpa using h2

theorem FDInv_find_duplicates (results : List (String × String)) :
    FDInv results (_find_duplicates results) := by
  have h := FDInv_fold results [] [] FDInv_nil
  simpa [_find_duplicates] using h

/-! ### From the grouped view to the rename mapping -/

/-- All files across all payload groups, in group order. -/
def allFiles (rev : List (String × List String)) : List String :=
  rev.flatMap (fun g => g.2)

theorem nodup_fst_unique {l : List (String × String)}
    (h : (l.map Prod.fst).Nodup) {f q1 q2 : String}
    (h1 : (f, q1) ∈ l) (h2 : (f, q2) ∈ l) : q1 = q2 := by
  induction l with
  | nil => cases h1
  | cons p rest ih =>
    rw [List.map_cons, List.nodup_cons] at h
    rcases List.mem_cons.mp h1 with e1 | m1 <;> rcases List.mem_cons.mp h2 with e2 | m2
    · have : (f, q1) = (f, q2) := e1.trans e2.symm
      exact congrArg Prod.snd this
    · exfalso
      refine h.1 ?_
      have hf2 : f ∈ List.map Prod.fst rest := List.mem_map_of_mem Prod.fst m2
      rw [← e1]
      exact hf2
    · exfalso
      refine h.1 ?_
      have hf1 : f ∈ List.map Prod.fst rest := List.mem_map_of_mem Prod.fst m1
      rw [← e2]
      exact hf1
    · exact ih h.2 m1 m2

theorem allFiles_nodup (results : List (String × String))
    (hnd : (results.map Prod.fst).Nodup) :
    (allFiles (_find_duplicates results)).Nodup := by
  obtain ⟨hkeys, hgrp, hne, hmem⟩ := FDInv_find_duplicates results
  rw [allFiles, List.nodup_flatMap]
  refine ⟨fun g hg => hgrp g hg, ?_⟩
  have hpw : (_find_duplicates results).Pairwise (fun g1 g2 => g1.1 ≠ g2.1) :=
    (List.pairwise_map).mp hkeys
  refine List.Pairwise.imp_of_mem ?_ hpw
  intro g1 g2 hg1 hg2 hne
  intro x hx1 hx2
  obtain ⟨q1, fs1⟩ := g1
  obtain ⟨q2, fs2⟩ := g2
  have m1 : (x, q1) ∈ results := (hmem x q1).mp ⟨fs1, hg1, hx1⟩
  have m2 : (x, q2) ∈ results := (hmem x q2).mp ⟨fs2, hg2, hx2⟩
  exact hne (nodup_fst_unique hnd m1 m2)

/-- The association list the inner loop of `_file_mapping` produces for
one payload group, starting at index `i`. -/
def groupEntriesAux (qr : String) (i : Nat) : List String → List (String × String)
  | [] => []
  | f :: rest =>
    (f, joinPath (dirname f) (qr ++ copyStr i)) :: groupEntriesAux qr (i + 1) rest

theorem keys_groupEntriesAux (qr : String) (files : List String) :
    ∀ i, (groupEntriesAux qr i files).map Prod.fst = files := by
  induction files with
  | nil => intro i; rfl
  | cons f rest ih => intro i; simp [groupEntriesAux, ih]

theorem dictInsert_fresh (m : List (String × String)) (k v : String)
    (h : ∀ p ∈ m, p.1 ≠ k) : dictInsert m k v = m ++ [(k, v)] := by
  unfold dictInsert
  rw [if_neg]
  simp only [List.any_eq_true, not_exists]
  intro p
  rw [not_and]
  intro hp hpk
  exact h p hp (by simpa using hpk)

theorem groupInsertAux_fresh (qr : String) (files : List String) :
    ∀ (i : Nat) (m : List (String × String)), files.Nodup →
      (∀ f ∈ files, ∀ p ∈ m, p.1 ≠ f) →
      groupInsertAux qr i m files = m ++ groupEntriesAux qr i files := by
  induction files with
  | nil => intro i m _ _; simp [groupInsertAux, groupEntriesAux]
  | cons f rest ih =>
    intro i m hnd hfresh
    rw [groupInsertAux, groupEntriesAux,
      dictInsert_fresh m f _ (fun p hp => hfresh f (by simp) p hp)]
    rw [ih (i + 1) (m ++ [(f, joinPath (dirname f) (qr ++ copyStr i))])
      (List.nodup_cons.mp hnd).2 ?_]
    · simp
    · intro g hgmem p hp
      rcases List.mem_append.mp hp with hm | hone
      · exact hfresh g (List.mem_cons_of_mem _ hgmem) p hm
      · have hpe : p = (f, joinPath (dirname f) (qr ++ copyStr i)) := by simpa using hone
        rw [hpe]
        intro hfg
        exact (List.nodup_cons.mp hnd).1 (by rw [← hfg] at hgmem; simpa using hgmem)

theorem fold_groupInsert (grouped : List (String × List String)) :
    ∀ m : List (String × String),
      (allFiles grouped).Nodup →
      (∀ f ∈ allFiles grouped, ∀ p ∈ m, p.1 ≠ f) →
      grouped.foldl (fun m g => groupInsertAux g.1 0 m g.2) m
        = m ++ grouped.flatMap (fun g => groupEntriesAux g.1 0 g.2) := by
  induction grouped with
  | nil => intro m _ _; simp
  | cons g rest ih =>
    intro m hall hfresh
    have hsplit : allFiles (g :: rest) = g.2 ++ allFiles rest := by
      simp [allFiles]
    rw [hsplit] at hall
    have hgnd : g.2.Nodup := (List.nodup_append.mp hall).1
    have hrest : (allFiles rest).Nodup := (List.nodup_append.mp hall).2.1
    have hdisj : g.2.Disjoint (allFiles rest) := (List.nodup_append.mp hall).2.2
    rw [List.foldl_cons]
    rw [groupInsertAux_fresh g.1 g.2 0 m hgnd
      (fun f hf p hp => hfresh f (by rw [hsplit]; exact List.mem_append_left _ hf) p hp)]
    rw [ih (m ++ groupEntriesAux g.1 0 g.2) hrest ?_]
    · simp
    · intro f hf p hp
      rcases List.mem_append.mp hp with hm | hent
      · exact hfresh f (by rw [hsplit]; exact List.mem_append_right _ hf) p hm
      · intro hpf
        have hkey : p.1 ∈ g.2 := by
          rw [← keys_groupEntriesAux g.1 g.2 0]
          exact List.mem_map_of_mem Prod.fst hent
        exact hdisj (hpf ▸ hkey) hf

theorem file_mapping_flat (results : List (String × String))
    (hnd : (results.map Prod.fst).Nodup) :
    _file_mapping results
      = (_find_duplicates results).flatMap (fun g => groupEntriesAux g.1 0 g.2) := by
  have h := fold_groupInsert (_find_duplicates results) []
    (allFiles_nodup results hnd) (by intro f _ p hp; cases hp)
  simpa [_file_mapping] using h

/-! ### Lookup lemmas -/

theorem lookup_append (k : String) (xs ys : List (String × String)) :
    List.lookup k (xs ++ ys) = (List.lookup k xs).or (List.lookup k ys) := by
  induction xs with
  | nil => rfl
  | cons p rest ih =>
    obtain ⟨a, b⟩ := p
    simp only [List.cons_append, List.lookup]
    split <;> simp [ih]

theorem lookup_eq_none (k : String) (m : List (String × String))
    (h : k ∉ m.map Prod.fst) : List.lookup k m = none := by
  induction m with
  | nil => rfl
  | cons p rest ih =>
    obtain ⟨a, b⟩ := p
    simp only [List.map_cons, List.mem_cons, not_or] at h
    simp only [List.lookup]
    have hka : (k == a) = false := by simpa using h.1
    rw [hka]
    exact ih h.2

theorem lookup_groupEntriesAux (qr : String) (files : List String) :
    files.Nodup →
    ∀ (i j : Nat) (hj : j < files.length),
      List.lookup (files.get ⟨j, hj⟩) (groupEntriesAux qr i files)
        = some (joinPath (dirname (files.get ⟨j, hj⟩)) (qr ++ copyStr (i + j))) := by
  induction files with
  | nil => intro _ i j hj; exact absurd hj (Nat.not_lt_zero j)
  | cons f rest ih =>
    intro hnd i j hj
    cases j with
    | zero =>
      simp [groupEntriesAux, List.lookup]
    | succ j' =>
      have hj' : j' < rest.length := by simpa using hj
      have hget : (f :: rest).get ⟨j' + 1, hj⟩ = rest.get ⟨j', hj'⟩ := rfl
      have hf : f ∉ rest := (List.nodup_cons.mp hnd).1
      have hne : rest.get ⟨j', hj'⟩ ≠ f := by
        intro e
        exact hf (e ▸ List.get_mem rest j' hj')
      rw [hget, groupEntriesAux]
      simp only [List.lookup]
      have hbeq : (rest.get ⟨j', hj'⟩ == f) = false := by simpa using hne
      rw [hbeq, ih (List.nodup_cons.mp hnd).2 (i + 1) j' hj']
      have harith : i + 1 + j' = i + (j' + 1) := by omega
      rw [harith]

theorem lookup_file_mapping (results : List (String × String))
    (hnd : (results.map Prod.fst).Nodup)
    {qr : String} {files : List String}
    (hg : (qr, files) ∈ _find_duplicates results)
    (j : Nat) (hj : j < files.length) :
    List.lookup (files.get ⟨j, hj⟩) (_file_mapping results)
      = some (joinPath (dirname (files.get ⟨j, hj⟩)) (qr ++ copyStr j)) := by
  have hfd := FDInv_find_duplicates results
  have hgnd : files.Nodup := hfd.2.1 (qr, files) hg
  rw [file_mapping_flat results hnd]
  obtain ⟨pre, post, hsplit⟩ := List.append_of_mem hg
  have hall := allFiles_nodup results hnd
  rw [hsplit] at hall
  have hallsplit : allFiles (pre ++ (qr, files) :: post)
      = allFiles pre ++ (files ++ allFiles post) := by
    simp [allFiles]
  rw [hallsplit] at hall
  have hdisj := (List.nodup_append.mp hall).2.2
  have hfmem : files.get ⟨j, hj⟩ ∈ files := List.get_mem files j hj
  have hnotpre : files.get ⟨j, hj⟩
      ∉ (pre.flatMap (fun g => groupEntriesAux g.1 0 g.2)).map Prod.fst := by
    have hkeys : (pre.flatMap (fun g => groupEntriesAux g.1 0 g.2)).map Prod.fst
        = allFiles pre := by
      simp only [List.map_flatMap, keys_groupEntriesAux]
      rfl
    rw [hkeys]
    intro hmem
    exact hdisj hmem (List.mem_append_left _ hfmem)
  rw [hsplit, List.flatMap_append, List.flatMap_cons, lookup_append,
    lookup_eq_none _ _ hnotpre, Option.none_or, lookup_append,
    lookup_groupEntriesAux qr files hgnd 0 j hj]
  simp

theorem empty_append_str (x : String) : ("" : String) ++ x = x :=
  String.ext (by rw [String.data_append]; rfl)

theorem joinPath_qr_inj {d qr x y : String}
    (hx : x.data.head? ≠ some '/') (hy : y.data.head? ≠ some '/')
    (h : joinPath d (qr ++ x) = joinPath d (qr ++ y)) : x = y := by
  by_cases hqr : qr = ""
  · subst hqr
    rw [empty_append_str, empty_append_str] at h
    exact joinPath_inj ⟨fun hc => (hx hc).elim, fun hc => (hy hc).elim⟩ h
  · refine string_append_cancel_left (joinPath_inj ?_ h)
    rw [head_data_append qr x hqr, head_data_append qr y hqr]

theorem copyStr_head_ne_slash (j : Nat) : (copyStr j).data.head? ≠ some '/' := by
  unfold copyStr
  split
  · decide
  · intro hc
    have hne1 : ("_copy" ++ natStr j : String) ≠ "" := by
      intro he
      have hlen := congrArg List.length (congrArg String.data he)
      rw [String.data_append, List.length_append] at hlen
      have h5 : "_copy".data.length = 5 := by decide
      rw [h5] at hlen
      simp at hlen
    rw [head_data_append _ ".jpg" hne1,
      head_data_append "_copy" (natStr j) (by decide)] at hc
    exact absurd hc (by decide)

theorem append_head_ne_slash (qr x : String)
    (hq : qr.data.head? ≠ some '/') (hx : x.data.head? ≠ some '/') :
    (qr ++ x).data.head? ≠ some '/' := by
  by_cases hqr : qr = ""
  · subst hqr
    rw [empty_append_str]
    exact hx
  · rw [head_data_append qr x hqr]
    exact hq

/-! ### Claim C2 -/

/-- C2: for scan results whose paths are pairwise distinct, within each
payload group of `_find_duplicates` the rename mapping assigns the j-th
file of the group the name `{payload}{copyStr j}` joined onto that
file's own directory; the group is nonempty and exactly its first file
(j = 0) receives the bare `{payload}.jpg` name; the copy names are
pairwise distinct, so the suffix indices 1..k-1 occur with no repeats;
and every assigned name ends in ".jpg" regardless of the source
extension. -/
theorem C2_group_assignment
    (results : List (String × String)) (hnd : (results.map Prod.fst).Nodup)
    (qr : String) (files : List String)
    (hg : (qr, files) ∈ _find_duplicates results) :
    0 < files.length ∧
    (∀ j (hj : j < files.length),
        List.lookup (files.get ⟨j, hj⟩) (_file_mapping results)
          = some (joinPath (dirname (files.get ⟨j, hj⟩)) (qr ++ copyStr j))) ∧
    (∀ j (hj : j < files.length),
        List.lookup (files.get ⟨j, hj⟩) (_file_mapping results)
            = some (joinPath (dirname (files.get ⟨j, hj⟩)) (qr ++ ".jpg"))
          ↔ j = 0) ∧
    (∀ j1 j2 : Nat, qr ++ copyStr j1 = qr ++ copyStr j2 → j1 = j2) ∧
    (∀ j (hj : j < files.length), ∃ stem : String,
        List.lookup (files.get ⟨j, hj⟩) (_file_mapping results)
          = some (joinPath (dirname (files.get ⟨j, hj⟩)) (stem ++ ".jpg"))) := by
  have hfd := FDInv_find_duplicates results
  refine ⟨?_, ?_, ?_, ?_, ?_⟩
  · exact List.length_pos.mpr (hfd.2.2.1 (qr, files) hg)
  · intro j hj
    exact lookup_file_mapping results hnd hg j hj
  · intro j hj
    constructor
    · intro heq
      have h2 := lookup_file_mapping results hnd hg j hj
      rw [h2] at heq
      have h3 := Option.some.inj heq
      have h4 : copyStr j = ".jpg" :=
        joinPath_qr_inj (copyStr_head_ne_slash j) (by decide) h3
      have h5 : copyStr j = copyStr 0 := by
        rw [h4]
        rfl
      exact copyStr_inj h5
    · intro hj0
      subst hj0
      have h2 := lookup_file_mapping results hnd hg 0 hj
      simpa [copyStr] using h2
  · intro j1 j2 h
    exact copyStr_inj (string_append_cancel_left h)
  · intro j hj
    by_cases hj0 : j = 0
    · subst hj0
      refine ⟨qr, ?_⟩
      have h2 := lookup_file_mapping results hnd hg 0 hj
      simpa [copyStr] using h2
    · refine ⟨qr ++ ("_copy" ++ natStr j), ?_⟩
      have h2 := lookup_file_mapping results hnd hg j hj
      rw [h2]
      have h3 : qr ++ copyStr j = qr ++ ("_copy" ++ natStr j) ++ ".jpg" := by
        rw [copyStr, if_neg hj0]
        apply String.ext
        simp [String.data_append, List.append_assoc]
      rw [h3]

/-- Witness for C2 at a concrete two-file group. -/
theorem C2_group_assignment_w :
    List.lookup "d/a.jpg"
        (_file_mapping [("d/a.jpg", "UMMZIQ"), ("d/b.jpg", "UMMZIQ")])
      = some "d/UMMZIQ.jpg" ∧
    List.lookup "d/b.jpg"
        (_file_mapping [("d/a.jpg", "UMMZIQ"), ("d/b.jpg", "UMMZIQ")])
      = some "d/UMMZIQ_copy1.jpg" := by
  have h := C2_group_assignment [("d/a.jpg", "UMMZIQ"), ("d/b.jpg", "UMMZIQ")]
    (by decide) "UMMZIQ" ["d/a.jpg", "d/b.jpg"] (by decide)
  obtain ⟨-, h2, -, -, -⟩ := h
  constructor
  · exact (h2 0 (by decide)).trans (by decide)
  · exact (h2 1 (by decide)).trans (by decide)

/-! ### Claim C10 -/

/-- C10: when every path occurs exactly once in the scan results, the
key set of the rename mapping produced by `_file_mapping` is exactly
the set of input paths, each appearing once. -/
theorem C10_mapping_keys (results : List (String × String))
    (hnd : (results.map Prod.fst).Nodup) :
    ((_file_mapping results).map Prod.fst).Nodup ∧
    (∀ f, f ∈ (_file_mapping results).map Prod.fst ↔ f ∈ results.map Prod.fst) := by
  have hkeysall : (_file_mapping results).map Prod.fst
      = allFiles (_find_duplicates results) := by
    rw [file_mapping_flat results hnd]
    simp only [List.map_flatMap, keys_groupEntriesAux]
    rfl
  obtain ⟨hkeys, hgrp, hne, hmem⟩ := FDInv_find_duplicates results
  constructor
  · rw [hkeysall]
    exact allFiles_nodup results hnd
  · intro f
    rw [hkeysall]
    constructor
    · intro hf
      obtain ⟨g, hg, hfg⟩ := List.mem_flatMap.mp hf
      obtain ⟨q1, fs1⟩ := g
      have hres : (f, q1) ∈ results := (hmem f q1).mp ⟨fs1, hg, hfg⟩
      exact List.mem_map_of_mem Prod.fst hres
    · intro hf
      obtain ⟨p, hp, hpf⟩ := List.mem_map.mp hf
      obtain ⟨pf, pq⟩ := p
      obtain ⟨fs, hfs, hffs⟩ := (hmem pf pq).mpr hp
      refine List.mem_flatMap.mpr ⟨(pq, fs), hfs, ?_⟩
      rw [← hpf]
      exact hffs

/-- Witness for C10 at a concrete result list. -/
theorem C10_mapping_keys_w :
    "d2/b.jpg" ∈ (_file_mapping [("d1/a.jpg", "UMMZIX"), ("d2/b.jpg", "b")]).map Prod.fst := by
  have h := C10_mapping_keys [("d1/a.jpg", "UMMZIX"), ("d2/b.jpg", "b")] (by decide)
  exact (h.2 "d2/b.jpg").mpr (by decide)

/-! ### Claim C6 -/

/-- C6 counterexample: target names of different payload groups can
collide.  With payloads "A" (a two-file group) and "A_copy1" (a
singleton group) in the same directory, the second file of the "A"
group and the lone "A_copy1" file both receive the target
"d/A_copy1.jpg". -/
theorem C6_cross_group_collision :
    List.lookup "d/f2.jpg"
        (_file_mapping [("d/f1.jpg", "A"), ("d/f2.jpg", "A"), ("d/f3.jpg", "A_copy1")])
      = some "d/A_copy1.jpg" ∧
    List.lookup "d/f3.jpg"
        (_file_mapping [("d/f1.jpg", "A"), ("d/f2.jpg", "A"), ("d/f3.jpg", "A_copy1")])
      = some "d/A_copy1.jpg" ∧
    ("A", ["d/f1.jpg", "d/f2.jpg"])
      ∈ _find_duplicates [("d/f1.jpg", "A"), ("d/f2.jpg", "A"), ("d/f3.jpg", "A_copy1")] ∧
    ("A_copy1", ["d/f3.jpg"])
      ∈ _find_duplicates [("d/f1.jpg", "A"), ("d/f2.jpg", "A"), ("d/f3.jpg", "A_copy1")] ∧
    ("A" : String) ≠ "A_copy1" := by
  decide

/-- C6 amended: the bare `{payload}.jpg` targets of two different
payload groups never collide when the two bare-named files share a
directory and neither payload begins with "/"; cross-group collisions
require a copy-suffixed name, as in the counterexample. -/
theorem C6_bare_names_distinct
    (results : List (String × String)) (hnd : (results.map Prod.fst).Nodup)
    (qr1 qr2 : String) (files1 files2 : List String) (f1 f2 : String)
    (hg1 : (qr1, files1) ∈ _find_duplicates results)
    (hg2 : (qr2, files2) ∈ _find_duplicates results)
    (hqr : qr1 ≠ qr2)
    (hh1 : files1.head? = some f1) (hh2 : files2.head? = some f2)
    (hd : dirname f1 = dirname f2)
    (hs1 : qr1.data.head? ≠ some '/') (hs2 : qr2.data.head? ≠ some '/') :
    List.lookup f1 (_file_mapping results) ≠ List.lookup f2 (_file_mapping results) := by
  intro heq
  have hjpg : (".jpg" : String).data.head? ≠ some '/' := by decide
  obtain ⟨t1, rfl⟩ : ∃ t, files1 = f1 :: t := by
    cases files1 with
    | nil => cases hh1
    | cons a t => exact ⟨t, by simpa using (by simpa using hh1 : a = f1) ▸ rfl⟩
  obtain ⟨t2, rfl⟩ : ∃ t, files2 = f2 :: t := by
    cases files2 with
    | nil => cases hh2
    | cons a t => exact ⟨t, by simpa using (by simpa using hh2 : a = f2) ▸ rfl⟩
  have h1 : List.lookup f1 (_file_mapping results)
      = some (joinPath (dirname f1) (qr1 ++ copyStr 0)) :=
    lookup_file_mapping results hnd hg1 0 (by simp)
  have h2 : List.lookup f2 (_file_mapping results)
      = some (joinPath (dirname f2) (qr2 ++ copyStr 0)) :=
    lookup_file_mapping results hnd hg2 0 (by simp)
  rw [h1, h2] at heq
  have h3 := Option.some.inj heq
  rw [hd] at h3
  have h4 : qr1 ++ copyStr 0 = qr2 ++ copyStr 0 :=
    joinPath_inj
      ⟨fun hc => (append_head_ne_slash qr1 _ hs1 (by rw [copyStr]; decide) hc).elim,
       fun hc => (append_head_ne_slash qr2 _ hs2 (by rw [copyStr]; decide) hc).elim⟩ h3
  have h5 : qr1 = qr2 := string_append_cancel_right h4
  exact hqr h5

/-- Witness for the amended C6 at two singleton groups. -/
theorem C6_bare_names_distinct_w :
    List.lookup "d/a.jpg" (_file_mapping [("d/a.jpg", "UMMZIA"), ("d/b.jpg", "UMMZIB")])
      ≠ List.lookup "d/b.jpg" (_file_mapping [("d/a.jpg", "UMMZIA"), ("d/b.jpg", "UMMZIB")]) :=
  C6_bare_names_distinct [("d/a.jpg", "UMMZIA"), ("d/b.jpg", "UMMZIB")] (by decide)
    "UMMZIA" "UMMZIB" ["d/a.jpg"] ["d/b.jpg"] "d/a.jpg" "d/b.jpg"
    (by decide) (by decide) (by decide) (by decide) (by decide) (by decide)
    (by decide) (by decide)

/-! ### Lemmas about the scan loop -/

theorem open_image_isSome {Img : Type} (env : PILEnv Img) (m : Bool)
    (fn : String) (r : Int) (f : String) (h : (env.imageOpen fn).isSome) :
    ∃ i, open_image env m fn r f = some i := by
  unfold open_image
  cases ho : env.imageOpen fn with
  | none => rw [ho] at h; cases h
  | some img0 => exact ⟨_, rfl⟩

theorem loopStep_ok {Img : Type} (env : PILEnv Img) (cfg : ScanConfig)
    (filename : String) (d : Int) (f : String) (pr : String × String)
    (h : loopStep env cfg filename d f = some (Except.ok pr)) :
    pr.1 = filename ∧ pyStartsWith pr.2 "UMMZI" = true := by
  unfold loopStep at h
  split at h
  · simp at h
  · split at h
    · simp at h
    · split at h
      · simp at h
      · split at h
        · next hs =>
          have hpr : (filename, _) = pr := Except.ok.inj (Option.some.inj h)
          rw [← hpr]
          exact ⟨rfl, hs⟩
        · simp at h

theorem scanTransforms_ok {Img : Type} (env : PILEnv Img) (cfg : ScanConfig)
    (filename : String) :
    ∀ (attempts : List (Int × String)) (pr : String × String),
      scanTransforms env cfg filename attempts = Except.ok pr →
      pr.1 = filename ∧
        (pyStartsWith pr.2 "UMMZI" = true ∨ pr.2 = fallbackName filename) := by
  intro attempts
  induction attempts with
  | nil =>
    intro pr h
    rw [scanTransforms] at h
    have hpr : (filename, fallbackName filename) = pr := Except.ok.inj h
    rw [← hpr]
    exact ⟨rfl, Or.inr rfl⟩
  | cons a rest ih =>
    intro pr h
    obtain ⟨d, f⟩ := a
    rw [scanTransforms] at h
    cases hls : loopStep env cfg filename d f with
    | none =>
      rw [hls] at h
      exact ih pr h
    | some r =>
      rw [hls] at h
      cases r with
      | error e => simp at h
      | ok pr' =>
        have hpr : pr' = pr := Except.ok.inj h
        have hstep := loopStep_ok env cfg filename d f pr' hls
        rw [hpr] at hstep
        exact ⟨hstep.1, Or.inl hstep.2⟩

theorem scanTransforms_all_none {Img : Type} (env : PILEnv Img) (cfg : ScanConfig)
    (filename : String) :
    ∀ attempts : List (Int × String),
      (∀ p ∈ attempts, loopStep env cfg filename p.1 p.2 = none) →
      scanTransforms env cfg filename attempts
        = Except.ok (filename, fallbackName filename) := by
  intro attempts
  induction attempts with
  | nil => intro _; rfl
  | cons a rest ih =>
    intro h
    obtain ⟨d, f⟩ := a
    rw [scanTransforms, h (d, f) (by simp)]
    exact ih (fun p hm => h p (List.mem_cons_of_mem _ hm))

/-! ### Claim C7 -/

/-- C7: a payload the scan returns either starts with "UMMZI" or is the
filename-derived fallback name, and the returned path is the scanned
file; a decoded payload lacking the prefix is never returned.  (A scan
that raises, modelled by `Except.error`, returns nothing.) -/
theorem C7_no_invalid_payload {Img : Type} (env : PILEnv Img) (cfg : ScanConfig)
    (filename : String) (pr : String × String)
    (h : qr_code env cfg filename = Except.ok pr) :
    pr.1 = filename ∧
      (pyStartsWith pr.2 "UMMZI" = true ∨ pr.2 = fallbackName filename) := by
  unfold qr_code at h
  split at h
  · have hpr : (filename, fallbackName filename) = pr := Except.ok.inj h
    rw [← hpr]
    exact ⟨rfl, Or.inr rfl⟩
  · split at h
    · exact scanTransforms_ok env cfg filename (attemptPairs cfg) pr h
    · split at h
      · simp at h
      · split at h
        · next hs =>
          have hpr : (filename, _) = pr := Except.ok.inj h
          rw [← hpr]
          exact ⟨rfl, Or.inl hs⟩
        · exact scanTransforms_ok env cfg filename (attemptPairs cfg) pr h

/-- An environment whose images always load and never contain any
decodable code. -/
def envNone : PILEnv Unit :=
  { imageOpen := fun _ => some ()
    rotateImg := fun i _ => i
    filterImg := fun i _ => i
    monoImg := fun i => i
    decodeRaw := fun _ => [] }

/-- Witness for C7: a run with no decodable code returns the fallback
name, which satisfies the disjunction. -/
theorem C7_no_invalid_payload_w :
    pyStartsWith "x" "UMMZI" = true ∨ ("x" : String) = fallbackName "x.jpg" := by
  have h := C7_no_invalid_payload envNone cfgDefault "x.jpg" ("x.jpg", "x") (by rfl)
  simpa using h.2

/-! ### Claim C8 -/

/-- Unfolding of `qr_code` once the default-argument load has
succeeded. -/
theorem qr_code_some {Img : Type} (env : PILEnv Img) (cfg : ScanConfig)
    (filename : String) (img : Img)
    (ho : open_image env cfg.monochrome filename 1 "blur" = some img) :
    qr_code env cfg filename =
      match env.decodeRaw img with
      | [] => scanTransforms env cfg filename (attemptPairs cfg)
      | c :: _ =>
        match decodeBytes c.data with
        | Except.error e => Except.error e
        | Except.ok code =>
          if pyStartsWith code "UMMZI" = true then Except.ok (filename, code)
          else scanTransforms env cfg filename (attemptPairs cfg) := by
  unfold qr_code
  rw [ho]

/-- The first (default-argument) decode attempt of `qr_code` found no
acceptable code: the image loaded, and the decoder returned either no
code at all or a first code whose payload decodes but lacks the
prefix.  In the source both cases raise `IndexError`, entering the
transform loop. -/
def firstAttemptRejects {Img : Type} (env : PILEnv Img) (cfg : ScanConfig)
    (filename : String) : Prop :=
  ∃ img, open_image env cfg.monochrome filename 1 "blur" = some img ∧
    (env.decodeRaw img = [] ∨
      ∃ c cs code, env.decodeRaw img = c :: cs ∧
        decodeBytes c.data = Except.ok code ∧ pyStartsWith code "UMMZI" = false)

/-- C8: when the image cannot be loaded (the load step signals failure
instead of raising), or when the first attempt rejects and every
configured transform attempt is exhausted without finding a
valid-prefix code, `qr_code` returns the pair of the path and the base
name without extension, raising no error. -/
theorem C8_fallback {Img : Type} (env : PILEnv Img) (cfg : ScanConfig)
    (filename : String)
    (h : open_image env cfg.monochrome filename 1 "blur" = none ∨
      (firstAttemptRejects env cfg filename ∧
        ∀ p ∈ attemptPairs cfg, loopStep env cfg filename p.1 p.2 = none)) :
    qr_code env cfg filename = Except.ok (filename, fallbackName filename) := by
  rcases h with hnone | ⟨⟨img, ho, hrej⟩, hloop⟩
  · unfold qr_code
    rw [hnone]
  · rw [qr_code_some env cfg filename img ho]
    rcases hrej with hempty | ⟨c, cs, code, hd, hb, hs⟩
    · rw [hempty]
      exact scanTransforms_all_none env cfg filename (attemptPairs cfg) hloop
    · rw [hd]
      dsimp only
      rw [hb]
      dsimp only
      rw [hs]
      simp only [Bool.false_eq_true, if_false]
      exact scanTransforms_all_none env cfg filename (attemptPairs cfg) hloop

/-- Witness for C8: with no decodable codes anywhere, the scan of
"dir/img.001.jpg" yields the fallback pair. -/
theorem C8_fallback_w :
    qr_code envNone cfgDefault "dir/img.001.jpg"
      = Except.ok ("dir/img.001.jpg", "img.001") := by
  have h := C8_fallback envNone cfgDefault "dir/img.001.jpg"
    (Or.inr ⟨⟨(), rfl, Or.inl rfl⟩, by decide⟩)
  rw [h]
  rfl

/-! ### Claim C4 -/

/-- An environment whose decoder returns a payload that is not valid
UTF-8 (the lone byte 0xFF). -/
def envBadBytes : PILEnv Unit :=
  { imageOpen := fun _ => some ()
    rotateImg := fun i _ => i
    filterImg := fun i _ => i
    monoImg := fun i => i
    decodeRaw := fun _ => [⟨[255], "QRCODE"⟩] }

/-- C4 counterexample: the scan task propagates an exception.  Only
`IndexError` is caught inside `qr_code`; a payload that is not valid
UTF-8 makes `bytes.decode` raise `UnicodeDecodeError`, which escapes
the task instead of being converted into the fallback ScanResult. -/
theorem C4_exception_escapes :
    qr_code envBadBytes cfgDefault "x.jpg" = Except.error PyErr.unicodeDecodeError := by
  rfl

/-- C4 amended: only `IndexError` outcomes (no code found, or a
decodable payload without the prefix) are converted into retries and
the fallback result.  When every image load succeeds and every decoded
payload is valid UTF-8, the scan indeed returns a ScanResult and never
propagates; otherwise `UnicodeDecodeError` (or a `TypeError` from
decoding a failed load inside the transform loop) escapes the task. -/
theorem C4_amended_no_escape {Img : Type} (env : PILEnv Img) (cfg : ScanConfig)
    (filename : String)
    (hopen : (env.imageOpen filename).isSome)
    (hutf : ∀ img, ∀ c ∈ env.decodeRaw img, (utf8Decode c.data).isSome) :
    ∃ pr, qr_code env cfg filename = Except.ok pr := by
  have htrans : ∀ attempts : List (Int × String),
      ∃ pr, scanTransforms env cfg filename attempts = Except.ok pr := by
    intro attempts
    induction attempts with
    | nil => exact ⟨_, rfl⟩
    | cons a rest ih =>
      obtain ⟨d, f⟩ := a
      rw [scanTransforms]
      obtain ⟨img, himg⟩ := open_image_isSome env cfg.monochrome filename d f hopen
      unfold loopStep
      rw [himg]
      dsimp only
      cases hd : env.decodeRaw img with
      | nil => exact ih
      | cons c cs =>
        dsimp only
        have hc := hutf img c (by rw [hd]; exact List.mem_cons_self c cs)
        cases hb : utf8Decode c.data with
        | none => rw [hb] at hc; cases hc
        | some code =>
          have hdb : decodeBytes c.data = Except.ok code := by
            rw [decodeBytes, hb]
          rw [hdb]
          dsimp only
          cases hs : pyStartsWith code "UMMZI" with
          | false =>
            simp only [Bool.false_eq_true, if_false]
            exact ih
          | true =>
            exact ⟨(filename, code), by simp⟩
  obtain ⟨img, himg⟩ := open_image_isSome env cfg.monochrome filename 1 "blur" hopen
  rw [qr_code_some env cfg filename img himg]
  cases hd : env.decodeRaw img with
  | nil => exact htrans (attemptPairs cfg)
  | cons c cs =>
    dsimp only
    have hc := hutf img c (by rw [hd]; exact List.mem_cons_self c cs)
    cases hb : utf8Decode c.data with
    | none => rw [hb] at hc; cases hc
    | some code =>
      have hdb : decodeBytes c.data = Except.ok code := by
        rw [decodeBytes, hb]
      rw [hdb]
      dsimp only
      cases hs : pyStartsWith code "UMMZI" with
      | false =>
        simp only [Bool.false_eq_true, if_false]
        exact htrans (attemptPairs cfg)
      | true =>
        exact ⟨(filename, code), by simp⟩

/-- Witness for the amended C4: in an environment with loadable images
and no decodable codes, the scan returns a ScanResult. -/
theorem C4_amended_no_escape_w :
    ∃ pr, qr_code envNone cfgDefault "y.jpg" = Except.ok pr :=
  C4_amended_no_escape envNone cfgDefault "y.jpg" (by rfl)
    (fun _ c hc => absurd hc (List.not_mem_nil c))

/-! ### Claim C5 -/

/-- An environment whose decoder only ever reports CODE128 symbols, one
of which carries the prefix-valid payload "UMMZI9". -/
def envC5 : PILEnv Unit :=
  { imageOpen := fun _ => some ()
    rotateImg := fun i _ => i
    filterImg := fun i _ => i
    monoImg := fun i => i
    decodeRaw := fun _ => [⟨[85, 77, 77, 90, 73, 57], "CODE128"⟩] }

/-- C5 counterexample: the decoder call passes no symbology filter
(`ZBarSymbol` is imported but never used), so a non-QR code whose
payload carries the prefix is accepted as the scan result. -/
theorem C5_non_qr_accepted :
    (∀ img : Unit, ∀ c ∈ envC5.decodeRaw img, c.symb = "CODE128") ∧
    qr_code envC5 cfgDefault "b.jpg" = Except.ok ("b.jpg", "UMMZI9") := by
  constructor
  · intro img c hc
    have hce : c = ⟨[85, 77, 77, 90, 73, 57], "CODE128"⟩ := by simpa [envC5] using hc
    rw [hce]
  · rfl

/-- Replace the symbology of every decoder result, keeping payloads. -/
def retype {Img : Type} (env : PILEnv Img) (t : String) : PILEnv Img :=
  { env with decodeRaw := fun img => (env.decodeRaw img).map (fun c => ⟨c.data, t⟩) }

theorem loopStep_retype {Img : Type} (env : PILEnv Img) (t : String)
    (cfg : ScanConfig) (filename : String) (d : Int) (f : String) :
    loopStep (retype env t) cfg filename d f = loopStep env cfg filename d f := by
  unfold loopStep
  have ho : open_image (retype env t) cfg.monochrome filename d f
      = open_image env cfg.monochrome filename d f := rfl
  rw [ho]
  cases hoi : open_image env cfg.monochrome filename d f with
  | none => rfl
  | some img =>
    have hd : (retype env t).decodeRaw img
        = (env.decodeRaw img).map (fun c => ⟨c.data, t⟩) := rfl
    dsimp only
    rw [hd]
    cases env.decodeRaw img with
    | nil => rfl
    | cons c cs => rfl

theorem scanTransforms_retype {Img : Type} (env : PILEnv Img) (t : String)
    (cfg : ScanConfig) (filename : String) :
    ∀ attempts : List (Int × String),
      scanTransforms (retype env t) cfg filename attempts
        = scanTransforms env cfg filename attempts := by
  intro attempts
  induction attempts with
  | nil => rfl
  | cons a rest ih =>
    obtain ⟨d, f⟩ := a
    rw [scanTransforms, scanTransforms, loopStep_retype, ih]

/-- C5 amended: the scan applies no symbology filter at all — the
behaviour of `qr_code` is invariant under rewriting every decoded
code's symbology to an arbitrary kind, because only the payload bytes
of the first result are ever inspected. -/
theorem C5_amended_no_symbology_filter {Img : Type} (env : PILEnv Img)
    (t : String) (cfg : ScanConfig) (filename : String) :
    qr_code (retype env t) cfg filename = qr_code env cfg filename := by
  unfold qr_code
  have ho : open_image (retype env t) cfg.monochrome filename 1 "blur"
      = open_image env cfg.monochrome filename 1 "blur" := rfl
  rw [ho]
  cases hoi : open_image env cfg.monochrome filename 1 "blur" with
  | none => rfl
  | some img =>
    have hd : (retype env t).decodeRaw img
        = (env.decodeRaw img).map (fun c => ⟨c.data, t⟩) := rfl
    dsimp only
    rw [hd]
    cases env.decodeRaw img with
    | nil => exact scanTransforms_retype env t cfg filename (attemptPairs cfg)
    | cons c cs =>
      rw [List.map_cons]
      dsimp only
      cases decodeBytes c.data with
      | error e => rfl
      | ok code =>
        dsimp only
        cases pyStartsWith code "UMMZI" with
        | true => simp
        | false =>
          simp only [Bool.false_eq_true, if_false]
          exact scanTransforms_retype env t cfg filename (attemptPairs cfg)

/-! ### Claim C1 -/

/-- An image that remembers which rotation and filters were applied to
it since loading. -/
structure TraceImg where
  rot : Int
  filts : List String
  deriving DecidableEq, Repr

/-- An environment in which the freshly loaded, untransformed image
(rotation 0, no filter) decodes to the valid QR payload "UMMZI1",
while every rotated or filtered version decodes to nothing. -/
def envC1 : PILEnv TraceImg :=
  { imageOpen := fun _ => some ⟨0, []⟩
    rotateImg := fun img d => ⟨img.rot + d, img.filts⟩
    filterImg := fun img f => ⟨img.rot, img.filts ++ [f]⟩
    monoImg := fun img => img
    decodeRaw := fun img =>
      if img.rot = 0 ∧ img.filts = []
      then [⟨[85, 77, 77, 90, 73, 49], "QRCODE"⟩] else [] }

/-- C1 (code bug): the first decode attempt is not performed on the
untransformed image.  `qr_code` calls `open_image(filename)` whose
default arguments are `rotate=1, filter="blur"`, so the first decode
runs on a 1-degree-rotated, blurred image — although the in-source
comment says the unadulterated image is scanned first.  In an
environment where exactly the untransformed image contains the valid
code "UMMZI1", the scan misses it at every attempt and returns the
fallback name instead of the code. -/
theorem C1_first_attempt_transformed :
    envC1.decodeRaw ⟨0, []⟩ = [⟨[85, 77, 77, 90, 73, 49], "QRCODE"⟩] ∧
    utf8Decode [85, 77, 77, 90, 73, 49] = some "UMMZI1" ∧
    pyStartsWith "UMMZI1" "UMMZI" = true ∧
    envC1.imageOpen "a.jpg" = some ⟨0, []⟩ ∧
    open_image envC1 cfgDefault.monochrome "a.jpg" 1 "blur" = some ⟨1, ["blur"]⟩ ∧
    qr_code envC1 cfgDefault "a.jpg" = Except.ok ("a.jpg", "a") := by
  refine ⟨by rfl, by rfl, by rfl, by rfl, by rfl, by rfl⟩

/-! ### Claim C3 -/

/-- C3 (code bug): `find_images` does not implement "case-insensitive
.jpg/.jpeg minus marker-prefixed files".  A marker-prefixed `.jpeg`
file is returned (only `UMMZI*.jpg` and `UMMZI*.JPG` are subtracted),
so a directory of already renamed `.jpeg` files is not idempotent; and
an uppercase `.JPEG` file is never found because the include glob is
misspelled `*.JEPG`.  The last two conjuncts show the marker exclusion
and the lowercase include working as the claim expects, isolating the
two divergences. -/
theorem C3_find_images_mismatch :
    find_images ["UMMZIBIRD.jpeg"] = ["UMMZIBIRD.jpeg"] ∧
    find_images ["bird.JPEG"] = [] ∧
    find_images ["UMMZIBIRD.jpg"] = [] ∧
    find_images ["bird.jpeg"] = ["bird.jpeg"] := by
  refine ⟨by rfl, by rfl, by rfl, by rfl⟩

/-! ### Claim C9 -/

/-- C9: if the i-th directory of the invocation yields no images while
every earlier directory yields some and scans cleanly, the run stops
with the abort message naming the i-th directory, and exactly the
directories before it were processed. -/
theorem C9_empty_dir_aborts {Img : Type} (env : DirEnv Img) (cfg : ScanConfig) :
    ∀ (dirs : List String) (i : Nat) (hi : i < dirs.length),
      find_images (env.fsOf (dirs.get ⟨i, hi⟩)) = [] →
      (∀ d ∈ dirs.take i, find_images (env.fsOf d) ≠ [] ∧
        ∃ rs, batchScan env.pil cfg (find_images (env.fsOf d)) = Except.ok rs) →
      ∃ ms, mainLoop env cfg dirs
          = (ms, RunOutcome.aborted
              ("No unscanned images detected in " ++ dirs.get ⟨i, hi⟩ ++ " - Aborting")) ∧
        ms.map Prod.fst = dirs.take i := by
  intro dirs
  induction dirs with
  | nil => intro i hi; exact absurd hi (Nat.not_lt_zero i)
  | cons dd rest ih =>
    intro i hi hempty hbefore
    cases i with
    | zero =>
      refine ⟨[], ?_, rfl⟩
      rw [mainLoop]
      have hlen : (find_images (env.fsOf dd)).length = 0 := by
        have he : find_images (env.fsOf dd) = [] := hempty
        rw [he]
        rfl
      rw [if_pos hlen]
      rfl
    | succ i' =>
      obtain ⟨hne, rs, hrs⟩ := hbefore dd (by simp)
      have hi' : i' < rest.length := by simpa using hi
      have hempty' : find_images (env.fsOf (rest.get ⟨i', hi'⟩)) = [] := hempty
      obtain ⟨ms', hml, hmap⟩ := ih i' hi' hempty'
        (fun d hd' => hbefore d (by rw [List.take_succ_cons]; exact List.mem_cons_of_mem _ hd'))
      refine ⟨(dd, _file_mapping rs) :: ms', ?_, ?_⟩
      · rw [mainLoop]
        have hlen : ¬(find_images (env.fsOf dd)).length = 0 := by
          intro h0
          exact hne (List.length_eq_zero.mp h0)
        rw [if_neg hlen, hrs]
        dsimp only
        rw [hml]
        rfl
      · rw [List.take_succ_cons, List.map_cons, hmap]

/-- The directory environment of the C9 witness: directory "d1" holds
one image, every other directory is empty. -/
def envDirs : DirEnv Unit :=
  { fsOf := fun d => if d = "d1" then ["a.jpg"] else []
    pil := envNone }

/-- Witness for C9: of the directories ["d1", "d2", "d3"], the run
processes "d1", aborts naming "d2", and never reaches "d3". -/
theorem C9_empty_dir_aborts_w :
    ∃ ms, mainLoop envDirs cfgDefault ["d1", "d2", "d3"]
        = (ms, RunOutcome.aborted "No unscanned images detected in d2 - Aborting") ∧
      ms.map Prod.fst = ["d1"] := by
  obtain ⟨ms, hml, hmap⟩ := C9_empty_dir_aborts envDirs cfgDefault ["d1", "d2", "d3"] 1
    (by decide) (by rfl)
    (fun d hd => by
      have hd1 : d = "d1" := by simpa using hd
      subst hd1
      exact ⟨by decide, ⟨[("a.jpg", "a")], by rfl⟩⟩)
  refine ⟨ms, ?_, hmap⟩
  rw [hml]
  exact congrArg (fun s => (ms, RunOutcome.aborted s)) (by decide)
